import Mathlib

/-!
Shallow embedding of the khinsider MIDI downloader (Python) for specification
checking.  Python strings are modelled as Lean `String`s; Python builtins
(`startswith`, `in`, `split`, `rstrip`, `strip`) are modelled as explicit
functions over the character data.  External collaborators (BeautifulSoup,
the HTTP session, the file system) are modelled as oracles: total functions
passed as parameters.
-/

/-- Model of Python `s.startswith(pre)`. -/
def pyStartsWith (s pre : String) : Bool :=
  pre.data.isPrefixOf s.data

/-- `subAt sub l` is true when `sub` occurs as a contiguous block of `l`. -/
def subAt (sub : List Char) : List Char → Bool
  | [] => sub.isPrefixOf []
  | c :: cs => sub.isPrefixOf (c :: cs) || subAt sub cs

/-- Model of Python `sub in s` (substring containment). -/
def pyContains (s sub : String) : Bool :=
  subAt sub.data s.data

/-- Model of Python `s.strip()`: drop whitespace from both ends. -/
def pyStrip (s : String) : String :=
  ⟨((s.data.dropWhile Char.isWhitespace).reverse.dropWhile
      Char.isWhitespace).reverse⟩

/-- Split a character list at every occurrence of `sep`, keeping empty
fields; the result is never empty (model of Python `str.split(sep)` with a
one-character separator). -/
def splitChar (sep : Char) : List Char → List (List Char)
  | [] => [[]]
  | c :: cs =>
    if c = sep then
      [] :: splitChar sep cs
    else
      match splitChar sep cs with
      | [] => [[c]]
      | g :: gs => (c :: g) :: gs

/-- Model of Python `s.split('/')`. -/
def pySplitSlash (s : String) : List String :=
  (splitChar '/' s.data).map (fun l => ⟨l⟩)

/-- Model of Python `s.rstrip('/')`. -/
def pyRstripSlash (s : String) : String :=
  ⟨(s.data.reverse.dropWhile (fun c => c = '/')).reverse⟩

namespace KH

/-- `MidiFile` entity (domain/entities/midi_file.py). -/
structure MidiFile where
  name : String
  url : String
  game_name : String
  system : String
  size_bytes : Nat := 0
  downloaded : Bool := false
deriving DecidableEq, Repr

/-- `MidiFile.filename`: `self.url.split('/')[-1]` when the url is truthy
(non-empty), else `f"{self.name}.mid"`. -/
def MidiFile.filename (m : MidiFile) : String :=
  if m.url ≠ "" then (pySplitSlash m.url).getLastD "" else m.name ++ ".mid"

/-- `MidiFile.mark_downloaded`. -/
def MidiFile.mark_downloaded (m : MidiFile) : MidiFile :=
  { m with downloaded := true }

/-- `Game` entity (domain/entities/game.py); `midi_files` defaults to `[]`. -/
structure Game where
  name : String
  url : String
  system : String
  midi_files : List MidiFile := []
deriving DecidableEq, Repr

/-!
HTML documents, as seen through the BeautifulSoup accessors the scraper
uses: `soup.find('table')` is the head of `tables`; `table.find_all('tr')`
is `rows`; `row.find_all('td')` is `cells`; `cell.find('a')` is the head of
the cell's `anchors`; `soup.find('a', string=...)` searches `anchors`, the
document-order list of all anchors.  An anchor's `text` models its string
content and `href` models the attribute (`none` when absent).
-/

structure Anchor where
  text : String
  href : Option String
deriving DecidableEq, Repr

structure Cell where
  anchors : List Anchor
deriving DecidableEq, Repr

structure Row where
  cells : List Cell
deriving DecidableEq, Repr

structure Table where
  rows : List Row
deriving DecidableEq, Repr

structure Doc where
  tables : List Table
  anchors : List Anchor
deriving DecidableEq, Repr

/-- `link.get('href', '')`. -/
def hrefOf (a : Anchor) : String := a.href.getD ""

/-- URL fixup inside `parse_game_list` (khinsider_scraper.py lines 42-43):
only the single-slash case is handled. -/
def normGameUrl (u : String) : String :=
  if pyStartsWith u "/" then "https://www.khinsider.com" ++ u else u

/-- URL fixup inside `parse_midi_list` (khinsider_scraper.py lines 85-88). -/
def normMidiUrl (u : String) : String :=
  if pyStartsWith u "//" then "https:" ++ u
  else if pyStartsWith u "/" then "https://www.khinsider.com" ++ u
  else u

/-- URL fixup inside `parse_midi_download_url` (khinsider_scraper.py lines
117-118): only the double-slash case is handled. -/
def normDownloadUrl (u : String) : String :=
  if pyStartsWith u "//" then "https:" ++ u else u

/-- The `for row in rows` loop of `KhinsiderScraper.parse_game_list`,
accumulating `games`. -/
def gameListLoop (system_name : String) : List Row → List Game → List Game
  | [], games => games
  | row :: rest, games =>
    if 2 ≤ row.cells.length then
      match row.cells.head?.bind (fun c => c.anchors.head?) with
      | some link =>
          gameListLoop system_name rest
            (games ++ [{ name := pyStrip link.text,
                         url := normGameUrl (hrefOf link),
                         system := system_name }])
      | none => gameListLoop system_name rest games
    else gameListLoop system_name rest games

/-- `KhinsiderScraper.parse_game_list`: first table, rows after the header
row, accumulate games. -/
def parse_game_list (doc : Doc) (system_name : String) : List Game :=
  match doc.tables.head? with
  | none => []
  | some table => gameListLoop system_name (table.rows.drop 1) []

/-- The `for row in rows` loop of `KhinsiderScraper.parse_midi_list`. -/
def midiListLoop (game_name system_name : String) :
    List Row → List MidiFile → List MidiFile
  | [], acc => acc
  | row :: rest, acc =>
    if 2 ≤ row.cells.length then
      match row.cells.head?.bind (fun c => c.anchors.head?) with
      | some link =>
          let midi_url := normMidiUrl (hrefOf link)
          if pyContains midi_url ".mid" then
            midiListLoop game_name system_name rest
              (acc ++ [{ name := pyStrip link.text,
                         url := midi_url,
                         game_name := game_name,
                         system := system_name }])
          else midiListLoop game_name system_name rest acc
      | none => midiListLoop game_name system_name rest acc
    else midiListLoop game_name system_name rest acc

/-- `KhinsiderScraper.parse_midi_list`: first table, all rows (no header
skip), accumulate MIDI files. -/
def parse_midi_list (doc : Doc) (game_name system_name : String) :
    List MidiFile :=
  match doc.tables.head? with
  | none => []
  | some table => midiListLoop game_name system_name table.rows []

/-- The anchor filter `lambda text: text and 'Click here to download' in
text` of `parse_midi_download_url`. -/
def downloadLinkPred (a : Anchor) : Bool :=
  a.text ≠ "" && pyContains a.text "Click here to download"

/-- `KhinsiderScraper.parse_midi_download_url`. -/
def parse_midi_download_url (doc : Doc) : Option String :=
  match doc.anchors.find? downloadLinkPred with
  | some link => some (normDownloadUrl (hrefOf link))
  | none => none

/-!
String-level entry points: BeautifulSoup's parse of raw HTML is an oracle
`soupOf : String → Doc` (total — the library parses arbitrary text into
some document).
-/

def parseGameListOfHtml (soupOf : String → Doc) (html system_name : String) :
    List Game :=
  parse_game_list (soupOf html) system_name

def parseMidiListOfHtml (soupOf : String → Doc) (html game_name system_name : String) :
    List MidiFile :=
  parse_midi_list (soupOf html) game_name system_name

def parseDownloadUrlOfHtml (soupOf : String → Doc) (html : String) :
    Option String :=
  parse_midi_download_url (soupOf html)

/-!
`KhinsiderRepositoryImpl` (infrastructure/storage/khinsider_repository_impl.py).
The HTTP client's `get_text` is an oracle `get_text : String → Option String`
(`none` models Python `None`).
-/

/-- Name derivation in `get_midi_files_for_game` (lines 48-50):
`parts = game_url.rstrip('/').split('/')`, then
`parts[-1] if len(parts) > 0 else "unknown"` and
`parts[-2] if len(parts) > 1 else "unknown"`. -/
def deriveNames (game_url : String) : String × String :=
  let parts := pySplitSlash (pyRstripSlash game_url)
  (if 0 < parts.length then parts.getLastD "unknown" else "unknown",
   if 1 < parts.length then parts.getD (parts.length - 2) "unknown" else "unknown")

/-- The body of the URL-resolution loop (lines 55-60): fetch the detail
page of one entry; on success and a parsed download link, overwrite `url`. -/
def resolveMidi (get_text : String → Option String) (soupOf : String → Doc)
    (m : MidiFile) : MidiFile :=
  match get_text m.url with
  | none => m
  | some detail_html =>
    match parse_midi_download_url (soupOf detail_html) with
    | none => m
    | some download_url => { m with url := download_url }

/-- The URL-resolution loop over the parsed list (`for midi in midi_list`);
each entry is updated independently, in place. -/
def resolvePhase (get_text : String → Option String) (soupOf : String → Doc)
    (l : List MidiFile) : List MidiFile :=
  l.map (resolveMidi get_text soupOf)

/-- `KhinsiderRepositoryImpl.get_midi_files_for_game`.  `if not html` is
Python truthiness: both `None` and the empty string short-circuit to `[]`. -/
def get_midi_files_for_game (get_text : String → Option String)
    (soupOf : String → Doc) (game_url : String) : List MidiFile :=
  match get_text game_url with
  | none => []
  | some html =>
    if html = "" then []
    else
      resolvePhase get_text soupOf
        (parse_midi_list (soupOf html) (deriveNames game_url).1
          (deriveNames game_url).2)

/-!
`KhinsiderClient` (infrastructure/http/khinsider_client.py).  The raw
session `GET` is an oracle returning `Option` bytes (a byte list);
`decode` models `bytes.decode('utf-8', errors='ignore')`.
-/

/-- `KhinsiderClient.get_text`: decode the body when it is truthy
(non-`None` and non-empty), else `None`. -/
def get_text_of (get : String → Option (List Nat)) (decode : List Nat → String)
    (url : String) : Option String :=
  match get url with
  | some content => if content.length ≠ 0 then some (decode content) else none
  | none => none

/-!
`KhinsiderClient._rate_limit`, over an idealized rational-valued wall
clock.  `last` is the instance's `last_request_time` field, `now` the value
`time.time()` returns on entry; `sleep(x)` advances the clock by exactly
`x`; the `time.time()` after the sleep is the wake time, stored back into
`last_request_time`, and the request is issued immediately after.
-/

/-- Argument of the conditional `time.sleep` in `_rate_limit` (0 when no
sleep happens). -/
def rateLimitSleep (delay last now : ℚ) : ℚ :=
  if now - last < delay then delay - (now - last) else 0

/-- Clock value right after `_rate_limit` returns; also the new
`last_request_time`. -/
def rateLimitWake (delay last now : ℚ) : ℚ :=
  now + rateLimitSleep delay last now

/-- One `KhinsiderClient.get`, timing part only: `(issue time, new
last_request_time)`. -/
def clientGetStep (delay last now : ℚ) : ℚ × ℚ :=
  (rateLimitWake delay last now, rateLimitWake delay last now)

/-!
`DownloadGameUseCase.execute` (application/use_cases/download_game_use_case.py).
Collaborators are oracles: `fileExists` is `file_repo.file_exists`,
`httpGet` is `client.get`, `saveOk` is whether `file_repo.save_file`
succeeds at a path.  The returned `StepOut` additionally counts the
client-`get` and `save_file` calls the step makes, so that "without
calling the HTTP client" is expressible.
-/

structure Env where
  fileExists : String → Bool
  httpGet : String → Option (List Nat)
  saveOk : String → Bool

structure StepOut where
  result : Option MidiFile
  httpCalls : Nat
  saveCalls : Nat
deriving Repr

/-- One iteration of the `for midi in pbar` loop of
`DownloadGameUseCase.execute`: `result` is the entry appended to
`downloaded` (or `none` when the file is skipped).  `if content:` is
Python truthiness: `None` and `b""` both fail it. -/
def downloadOne (env : Env) (resume : Bool) (output_dir : String)
    (midi : MidiFile) : StepOut :=
  if resume && env.fileExists (output_dir ++ "/" ++ midi.filename) then
    { result := some midi.mark_downloaded, httpCalls := 0, saveCalls := 0 }
  else
    match env.httpGet midi.url with
    | none => { result := none, httpCalls := 1, saveCalls := 0 }
    | some content =>
      if content.length = 0 then
        { result := none, httpCalls := 1, saveCalls := 0 }
      else if env.saveOk (output_dir ++ "/" ++ midi.filename) then
        { result := some { midi with size_bytes := content.length,
                                     downloaded := true },
          httpCalls := 1, saveCalls := 1 }
      else { result := none, httpCalls := 1, saveCalls := 1 }

/-- `DownloadGameUseCase.execute` given the list the repository returned:
empty list short-circuits to `[]`; otherwise each file is processed in
order and the successful ones are collected. -/
def executeGame (env : Env) (resume : Bool) (output_dir : String)
    (midi_files : List MidiFile) : List MidiFile :=
  if midi_files.isEmpty then []
  else midi_files.filterMap (fun m => (downloadOne env resume output_dir m).result)

/-- `DownloadGameUseCase.execute` end to end, with the repository's
`get_midi_files_for_game` as an oracle. -/
def execute (repo : String → List MidiFile) (env : Env) (game_url : String)
    (output_dir : String) (resume : Bool) : List MidiFile :=
  executeGame env resume output_dir (repo game_url)

/-- "The substring after the last `'/'`", read off the spec: scan the
characters from the right while they differ from `'/'`. -/
def afterLastSlash (s : String) : String :=
  ⟨(s.data.reverse.takeWhile (fun c => c != '/')).reverse⟩

/-!
Spec-side readings, written from the specification's words, to be compared
with the source-side loop definitions above.
-/

/-- One row of a game listing, as the spec reads: a row with at least two
cells whose first cell has an anchor yields a `Game` made of the anchor's
stripped text and its (game-list-normalized) href. -/
def gameOfRow (system_name : String) (row : Row) : Option Game :=
  match row.cells with
  | c0 :: _ :: _ =>
    match c0.anchors.head? with
    | some link => some { name := pyStrip link.text,
                          url := normGameUrl (hrefOf link),
                          system := system_name }
    | none => none
  | _ => none

/-- One row of a MIDI listing, as the spec reads; kept only when the
resolved URL contains `".mid"`. -/
def midiOfRow (game_name system_name : String) (row : Row) : Option MidiFile :=
  match row.cells with
  | c0 :: _ :: _ =>
    match c0.anchors.head? with
    | some link =>
      if pyContains (normMidiUrl (hrefOf link)) ".mid" then
        some { name := pyStrip link.text,
               url := normMidiUrl (hrefOf link),
               game_name := game_name,
               system := system_name }
      else none
    | none => none
  | _ => none

/-- Declarative reading of `parse_game_list`: first table, drop the header
row, one `Game` per qualifying row, in row order. -/
def specParseGameList (doc : Doc) (system_name : String) : List Game :=
  match doc.tables.head? with
  | none => []
  | some table => (table.rows.drop 1).filterMap (gameOfRow system_name)

/-- Declarative reading of `parse_midi_list`: first table, all rows, one
`MidiFile` per qualifying row, in row order. -/
def specParseMidiList (doc : Doc) (game_name system_name : String) :
    List MidiFile :=
  match doc.tables.head? with
  | none => []
  | some table => table.rows.filterMap (midiOfRow game_name system_name)

/-- The path segments of a game URL, after stripping trailing slashes. -/
def specSegments (game_url : String) : List String :=
  pySplitSlash (pyRstripSlash game_url)

/-- The spec's "last path segment, falling back to `unknown` if absent". -/
def specGameName (game_url : String) : String :=
  ((specSegments game_url).getLast?).getD "unknown"

/-- The spec's "second-to-last path segment, falling back to `unknown` if
absent": the last segment once the final one is removed. -/
def specSystemName (game_url : String) : String :=
  ((specSegments game_url).dropLast.getLast?).getD "unknown"

/-!
Concrete fixtures used to instantiate the claim theorems.
-/

/-- A document whose first table has a header row and one data row whose
first-cell anchor carries a protocol-relative (`//`) href. -/
def protoRelDoc : Doc :=
  { tables := [{ rows := [{ cells := [] },
                          { cells := [{ anchors := [{ text := "G", href := some "//x/y.mid" }] },
                                      { anchors := [] }] }] }],
    anchors := [] }

/-- A document with one table and a single data row pointing at a
site-relative `.mid` href. -/
def oneMidiDoc : Doc :=
  { tables := [{ rows := [{ cells := [{ anchors := [{ text := "Song", href := some "/a.mid" }] },
                                      { anchors := [] }] }] }],
    anchors := [] }

/-- The empty document: no tables, no anchors. -/
def emptyDoc : Doc := { tables := [], anchors := [] }

/-- A `get_text` oracle that answers only for one game URL. -/
def fixGetText : String → Option String :=
  fun u => if u = "https://s/sys/game" then some "<p>" else none

/-- A soup oracle returning the one-row MIDI fixture for every input. -/
def fixSoup : String → Doc := fun _ => oneMidiDoc

/-- A sample `MidiFile`. -/
def mFix : MidiFile :=
  { name := "Intro", url := "https://x/a.mid", game_name := "g", system := "s" }

/-- Environment where the destination file already exists and every other
collaborator fails. -/
def envExists : Env :=
  { fileExists := fun _ => true, httpGet := fun _ => none, saveOk := fun _ => false }

/-- Environment where nothing is on disk and every fetch fails. -/
def envFetchFail : Env :=
  { fileExists := fun _ => false, httpGet := fun _ => none, saveOk := fun _ => true }

/-- Environment where nothing is on disk and every fetch succeeds with an
empty body. -/
def envEmptyBody : Env :=
  { fileExists := fun _ => false, httpGet := fun _ => some [], saveOk := fun _ => true }

end KH

theorem splitChar_ne_nil (sep : Char) (l : List Char) : splitChar sep l ≠ [] := by
  cases l with
  | nil => simp [splitChar]
  | cons c cs =>
    simp only [splitChar]
    split
    · simp
    · split <;> simp

theorem splitChar_cons_of_eq (sep : Char) (c : Char) (cs : List Char)
    (h : c = sep) : splitChar sep (c :: cs) = [] :: splitChar sep cs := by
  simp [splitChar, h]

theorem splitChar_cons_of_ne (sep : Char) (c : Char) (cs : List Char)
    (g : List Char) (gs : List (List Char)) (h : ¬c = sep)
    (heq : splitChar sep cs = g :: gs) :
    splitChar sep (c :: cs) = (c :: g) :: gs := by
  simp only [splitChar, if_neg h, heq]

theorem length_splitChar_eq_one_iff (sep : Char) (l : List Char) :
    (splitChar sep l).length = 1 ↔ sep ∉ l := by
  induction l with
  | nil => simp [splitChar]
  | cons c cs ih =>
    by_cases h : c = sep
    · rw [splitChar_cons_of_eq sep c cs h]
      have hne := splitChar_ne_nil sep cs
      simp only [List.length_cons, List.mem_cons]
      constructor
      · intro hlen
        exact absurd (List.length_eq_zero.mp (Nat.succ_injective hlen)) hne
      · intro hmem; exact absurd (Or.inl h.symm) hmem
    · cases heq : splitChar sep cs with
      | nil => exact absurd heq (splitChar_ne_nil sep cs)
      | cons g gs =>
        rw [splitChar_cons_of_ne sep c cs g gs h heq]
        rw [heq] at ih
        simp only [List.length_cons] at ih ⊢
        simp only [List.mem_cons]
        constructor
        · intro hlen hor
          rcases hor with hc | hcs
          · exact h hc.symm
          · exact (ih.mp hlen) hcs
        · intro hmem
          exact ih.mpr (fun hcs => hmem (Or.inr hcs))

theorem takeWhile_ne_of_not_mem (sep : Char) (l : List Char) (h : sep ∉ l) :
    l.takeWhile (fun c => c != sep) = l := by
  rw [List.takeWhile_eq_self_iff]
  intro x hx
  simp only [bne_iff_ne, ne_eq]
  intro hxs; exact h (hxs ▸ hx)

theorem not_mem_of_takeWhile_ne_self (sep : Char) (l : List Char)
    (h : l.takeWhile (fun c => c != sep) = l) : sep ∉ l := by
  intro hmem
  have := List.takeWhile_eq_self_iff.mp h sep hmem
  simp at this

/-- The last field of `splitChar` is the reversed `takeWhile` of the
reversed list: the maximal separator-free suffix. -/
theorem getLastD_splitChar (sep : Char) (l : List Char) :
    (splitChar sep l).getLastD [] =
      (l.reverse.takeWhile (fun c => c != sep)).reverse := by
  induction l with
  | nil => simp [splitChar]
  | cons c cs ih =>
    by_cases h : c = sep
    · have hne := splitChar_ne_nil sep cs
      have hlhs : (splitChar sep (c :: cs)).getLastD [] =
          (splitChar sep cs).getLastD [] := by
        rw [splitChar_cons_of_eq sep c cs h]
        rw [List.getLastD_eq_getLast?, List.getLastD_eq_getLast?]
        cases hsc : splitChar sep cs with
        | nil => exact absurd hsc hne
        | cons g gs => rw [List.getLast?_cons_cons]
      have hrhs : ((c :: cs).reverse.takeWhile (fun x => x != sep)) =
          (cs.reverse.takeWhile (fun x => x != sep)) := by
        rw [List.reverse_cons, List.takeWhile_append]
        split
        · next hcond =>
          have hself : cs.reverse.takeWhile (fun x => x != sep) = cs.reverse :=
            (List.takeWhile_prefix _).eq_of_length hcond
          simp [hself, h]
        · rfl
      rw [hlhs, ih, hrhs]
    · cases heq : splitChar sep cs with
      | nil => exact absurd heq (splitChar_ne_nil sep cs)
      | cons g gs =>
        have hsplit : splitChar sep (c :: cs) = (c :: g) :: gs :=
          splitChar_cons_of_ne sep c cs g gs h heq
        cases gs with
        | nil =>
          have hnm : sep ∉ cs := by
            rw [← length_splitChar_eq_one_iff sep cs, heq]; rfl
          have hg : g = cs := by
            have : (splitChar sep cs).getLastD [] = g := by rw [heq]; rfl
            rw [ih] at this
            rw [takeWhile_ne_of_not_mem sep cs.reverse
              (fun hmem => hnm (List.mem_reverse.mp hmem))] at this
            simpa using this.symm
          rw [hsplit]
          have : ((c :: cs).reverse.takeWhile (fun x => x != sep)) =
              cs.reverse ++ [c] := by
            rw [List.reverse_cons, List.takeWhile_append]
            have hself : cs.reverse.takeWhile (fun x => x != sep) = cs.reverse :=
              takeWhile_ne_of_not_mem sep cs.reverse
                (fun hmem => hnm (List.mem_reverse.mp hmem))
            rw [if_pos (by rw [hself])]
            have hc : (c != sep) = true := by simp [h]
            simp [List.takeWhile_cons, hc]
          rw [this]
          simp [hg]
        | cons g' gs' =>
          have hnm : sep ∈ cs := by
            by_contra hnot
            have := (length_splitChar_eq_one_iff sep cs).mpr hnot
            rw [heq] at this
            simp at this
          have hlhs : (splitChar sep (c :: cs)).getLastD [] =
              (splitChar sep cs).getLastD [] := by
            rw [hsplit, heq, List.getLastD_eq_getLast?, List.getLastD_eq_getLast?,
              List.getLast?_cons_cons, List.getLast?_cons_cons]
          have hrhs : ((c :: cs).reverse.takeWhile (fun x => x != sep)) =
              (cs.reverse.takeWhile (fun x => x != sep)) := by
            rw [List.reverse_cons, List.takeWhile_append]
            split
            · next hcond =>
              have hself : cs.reverse.takeWhile (fun x => x != sep) = cs.reverse :=
                (List.takeWhile_prefix _).eq_of_length hcond
              have : sep ∉ cs := fun hm =>
                not_mem_of_takeWhile_ne_self sep cs.reverse hself
                  (List.mem_reverse.mpr hm)
              exact absurd hnm this
            · rfl
          rw [hlhs, ih, hrhs]

/-!
Claim theorems.
-/

/-- C8: for every `MidiFile`, the derived filename is the final path
segment of its URL — the substring after the last `'/'` — and when the URL
is the empty string it is the file's name followed by `".mid"`; in
particular URL `https://x/y/Song%20Name.mid` derives `Song%20Name.mid`,
and an empty URL with name `Intro` derives `Intro.mid`. -/
theorem C8_derived_filename :
    (∀ m : KH.MidiFile,
      (m.url ≠ "" → m.filename = KH.afterLastSlash m.url) ∧
      (m.url = "" → m.filename = m.name ++ ".mid")) ∧
    KH.MidiFile.filename ⟨"n", "https://x/y/Song%20Name.mid", "g", "s", 0, false⟩ =
      "Song%20Name.mid" ∧
    KH.MidiFile.filename ⟨"Intro", "", "g", "s", 0, false⟩ = "Intro.mid" := by
  refine ⟨fun m => ⟨fun hne => ?_, fun he => ?_⟩, by decide, by decide⟩
  · rw [KH.MidiFile.filename, if_pos hne]
    show (pySplitSlash m.url).getLastD ⟨[]⟩ = KH.afterLastSlash m.url
    rw [pySplitSlash, List.getLastD_map (fun l => (⟨l⟩ : String)) _ []]
    rw [getLastD_splitChar]
    rfl
  · rw [KH.MidiFile.filename, if_neg (not_not_intro he)]

/-- Witness for C8: the first conjunct applied at the concrete example. -/
theorem C8_witness :
    (⟨"n", "https://x/y/Song%20Name.mid", "g", "s", 0, false⟩ : KH.MidiFile).url ≠ "" ∧
    (⟨"n", "https://x/y/Song%20Name.mid", "g", "s", 0, false⟩ : KH.MidiFile).filename =
      KH.afterLastSlash "https://x/y/Song%20Name.mid" :=
  ⟨by decide,
   (C8_derived_filename.1 ⟨"n", "https://x/y/Song%20Name.mid", "g", "s", 0, false⟩).1
     (by decide)⟩

namespace KH

theorem gameListLoop_eq (system_name : String) (rows : List Row)
    (acc : List Game) :
    gameListLoop system_name rows acc =
      acc ++ rows.filterMap (gameOfRow system_name) := by
  induction rows generalizing acc with
  | nil => simp [gameListLoop]
  | cons r rs ih =>
    cases hc : r.cells with
    | nil =>
      simp only [gameListLoop, hc, List.filterMap_cons, gameOfRow]
      simp [ih]
    | cons c0 ctail =>
      cases ctail with
      | nil =>
        simp only [gameListLoop, hc, List.filterMap_cons, gameOfRow]
        simp [ih]
      | cons c1 crest =>
        cases ha : c0.anchors.head? with
        | none =>
          simp only [gameListLoop, hc, List.filterMap_cons, gameOfRow, ha]
          simp [ha, ih]
        | some link =>
          simp only [gameListLoop, hc, List.filterMap_cons, gameOfRow, ha]
          simp [ha, ih]

theorem midiListLoop_eq (game_name system_name : String) (rows : List Row)
    (acc : List MidiFile) :
    midiListLoop game_name system_name rows acc =
      acc ++ rows.filterMap (midiOfRow game_name system_name) := by
  induction rows generalizing acc with
  | nil => simp [midiListLoop]
  | cons r rs ih =>
    cases hc : r.cells with
    | nil =>
      simp only [midiListLoop, hc, List.filterMap_cons, midiOfRow]
      simp [ih]
    | cons c0 ctail =>
      cases ctail with
      | nil =>
        simp only [midiListLoop, hc, List.filterMap_cons, midiOfRow]
        simp [ih]
      | cons c1 crest =>
        cases ha : c0.anchors.head? with
        | none =>
          simp only [midiListLoop, hc, List.filterMap_cons, midiOfRow, ha]
          simp [ha, ih]
        | some link =>
          by_cases hm : pyContains (normMidiUrl (hrefOf link)) ".mid"
          · simp only [midiListLoop, hc, List.filterMap_cons, midiOfRow, ha]
            simp [ha, hm, ih]
          · simp only [midiListLoop, hc, List.filterMap_cons, midiOfRow, ha]
            simp [ha, hm, ih]

end KH

theorem getD_len_sub_two {α : Type} (l : List α) (d : α) (h : 1 < l.length) :
    l.getD (l.length - 2) d = (l.dropLast.getLast?).getD d := by
  rw [List.getD_eq_getElem?_getD, List.getLast?_eq_getElem?, List.length_dropLast,
    List.getElem?_dropLast]
  rw [if_pos (by omega)]
  have : l.length - 1 - 1 = l.length - 2 := by omega
  rw [this]

namespace KH

theorem specSegments_ne_nil (game_url : String) : specSegments game_url ≠ [] := by
  unfold specSegments pySplitSlash
  intro h
  exact splitChar_ne_nil '/' (pyRstripSlash game_url).data (List.map_eq_nil_iff.mp h)

theorem deriveNames_eq_spec (game_url : String) :
    deriveNames game_url = (specGameName game_url, specSystemName game_url) := by
  have hne : specSegments game_url ≠ [] := specSegments_ne_nil game_url
  have hpos : 0 < (specSegments game_url).length := List.length_pos.mpr hne
  unfold deriveNames specGameName specSystemName
  show ((if 0 < (specSegments game_url).length then
          (specSegments game_url).getLastD "unknown" else "unknown"),
        (if 1 < (specSegments game_url).length then
          (specSegments game_url).getD ((specSegments game_url).length - 2) "unknown"
         else "unknown")) = _
  rw [if_pos hpos]
  by_cases h1 : 1 < (specSegments game_url).length
  · rw [if_pos h1, getD_len_sub_two _ _ h1, List.getLastD_eq_getLast?]
  · rw [if_neg h1]
    have hlen : (specSegments game_url).length = 1 := by omega
    cases hs : specSegments game_url with
    | nil => exact absurd hs hne
    | cons x xs =>
      rw [hs] at hlen
      simp only [List.length_cons] at hlen
      have hxs : xs = [] := List.length_eq_zero.mp (Nat.succ_injective hlen)
      subst hxs
      simp [List.getLastD_eq_getLast?]

theorem resolveMidi_frame (get_text : String → Option String)
    (soupOf : String → Doc) (m : MidiFile) :
    (resolveMidi get_text soupOf m).name = m.name ∧
    (resolveMidi get_text soupOf m).game_name = m.game_name ∧
    (resolveMidi get_text soupOf m).system = m.system ∧
    (resolveMidi get_text soupOf m).size_bytes = m.size_bytes ∧
    (resolveMidi get_text soupOf m).downloaded = m.downloaded := by
  unfold resolveMidi
  cases hg : get_text m.url with
  | none => simp
  | some dh =>
    cases h2 : parse_midi_download_url (soupOf dh) with
    | none => simp [h2]
    | some u => simp [h2]

theorem midiOfRow_fields (game_name system_name : String) (row : Row)
    (m : MidiFile) (h : midiOfRow game_name system_name row = some m) :
    m.game_name = game_name ∧ m.system = system_name := by
  unfold midiOfRow at h
  cases hc : row.cells with
  | nil => rw [hc] at h; simp at h
  | cons c0 ctail =>
    cases ctail with
    | nil => rw [hc] at h; simp at h
    | cons c1 crest =>
      rw [hc] at h
      cases ha : c0.anchors.head? with
      | none => simp [ha] at h
      | some link =>
        simp only [ha] at h
        by_cases hm : pyContains (normMidiUrl (hrefOf link)) ".mid"
        · rw [if_pos hm] at h
          cases h
          exact ⟨rfl, rfl⟩
        · rw [if_neg hm] at h
          simp at h

end KH

theorem startsWith_single_of_double (u : String)
    (h : pyStartsWith u "//" = true) : pyStartsWith u "/" = true := by
  unfold pyStartsWith at h ⊢
  rw [show ("//" : String).data = ['/', '/'] from rfl] at h
  rw [show ("/" : String).data = ['/'] from rfl]
  cases hu : u.data with
  | nil => rw [hu] at h; simp [List.isPrefixOf] at h
  | cons c cs =>
    rw [hu] at h
    simp only [List.isPrefixOf, Bool.and_eq_true] at h ⊢
    exact ⟨h.1, trivial⟩

theorem rateLimitWake_ge (d l n : ℚ) : l + d ≤ KH.rateLimitWake d l n := by
  unfold KH.rateLimitWake KH.rateLimitSleep
  by_cases h : n - l < d
  · rw [if_pos h]; linarith
  · rw [if_neg h]; linarith

/-- C1 counterexample: in `parse_game_list`, a protocol-relative href
`//x/y.mid` is given the single-slash treatment and becomes
`https://www.khinsider.com//x/y.mid`, not `https://x/y.mid` as the claim's
single normalization rule demands. -/
theorem C1_counterexample :
    (KH.parse_game_list KH.protoRelDoc "sys").map KH.Game.url =
      ["https://www.khinsider.com//x/y.mid"] ∧
    "https://www.khinsider.com//x/y.mid" ≠ "https://x/y.mid" := by
  constructor
  · rfl
  · decide

/-- C1 as amended: only `parse_midi_list`'s normalization follows the full
rule.  `parse_game_list` prefixes the host to every href starting with `/`
— including protocol-relative `//` hrefs — and passes anything else
through; `parse_midi_download_url` turns a leading `//` into `https:` plus
the rest and passes everything else (including single-`/` hrefs) through
unchanged. -/
theorem C1_amended_normalization (u : String) :
    (pyStartsWith u "//" = true →
      KH.normMidiUrl u = "https:" ++ u ∧
      KH.normDownloadUrl u = "https:" ++ u ∧
      KH.normGameUrl u = "https://www.khinsider.com" ++ u) ∧
    (pyStartsWith u "/" = true → pyStartsWith u "//" = false →
      KH.normMidiUrl u = "https://www.khinsider.com" ++ u ∧
      KH.normGameUrl u = "https://www.khinsider.com" ++ u ∧
      KH.normDownloadUrl u = u) ∧
    (pyStartsWith u "/" = false →
      KH.normMidiUrl u = u ∧ KH.normGameUrl u = u ∧
      KH.normDownloadUrl u = u) := by
  refine ⟨fun h2 => ?_, fun h1 h2 => ?_, fun h1 => ?_⟩
  · have h1 := startsWith_single_of_double u h2
    refine ⟨?_, ?_, ?_⟩
    · unfold KH.normMidiUrl; rw [if_pos h2]
    · unfold KH.normDownloadUrl; rw [if_pos h2]
    · unfold KH.normGameUrl; rw [if_pos h1]
  · refine ⟨?_, ?_, ?_⟩
    · unfold KH.normMidiUrl; rw [if_neg (by simp [h2]), if_pos h1]
    · unfold KH.normGameUrl; rw [if_pos h1]
    · unfold KH.normDownloadUrl; rw [if_neg (by simp [h2])]
  · have h2 : pyStartsWith u "//" = false := by
      cases hd : pyStartsWith u "//"
      · rfl
      · exact absurd (startsWith_single_of_double u hd) (by simp [h1])
    refine ⟨?_, ?_, ?_⟩
    · unfold KH.normMidiUrl; rw [if_neg (by simp [h2]), if_neg (by simp [h1])]
    · unfold KH.normGameUrl; rw [if_neg (by simp [h1])]
    · unfold KH.normDownloadUrl; rw [if_neg (by simp [h2])]

/-- Witness for the amended C1, at the protocol-relative input. -/
theorem C1_witness :
    pyStartsWith "//x/y.mid" "//" = true ∧
    KH.normMidiUrl "//x/y.mid" = "https:" ++ "//x/y.mid" ∧
    KH.normDownloadUrl "//x/y.mid" = "https:" ++ "//x/y.mid" ∧
    KH.normGameUrl "//x/y.mid" = "https://www.khinsider.com" ++ "//x/y.mid" :=
  ⟨by decide, (C1_amended_normalization "//x/y.mid").1 (by decide)⟩

/-- C3: `parse_game_list` keeps the first table, skips its header row and
yields one `Game` per remaining row with at least two cells and an anchor
in the first cell, in row order, from the anchor's stripped text and href;
`parse_midi_list` applies the same per-row rule to all rows of the first
table and keeps a row only when its resolved URL contains `".mid"`. -/
theorem C3_parse_structure (doc : KH.Doc) (system_name game_name gsys : String) :
    KH.parse_game_list doc system_name = KH.specParseGameList doc system_name ∧
    KH.parse_midi_list doc game_name gsys = KH.specParseMidiList doc game_name gsys := by
  constructor
  · unfold KH.parse_game_list KH.specParseGameList
    cases ht : doc.tables.head? with
    | none => rfl
    | some t => simp [KH.gameListLoop_eq]
  · unfold KH.parse_midi_list KH.specParseMidiList
    cases ht : doc.tables.head? with
    | none => rfl
    | some t => simp [KH.midiListLoop_eq]

/-- C7: the parsers are total functions of the raw HTML (through the soup
oracle): a document with no table makes both list parsers return `[]`, and
a document with no anchors makes the download-url parser return `none`;
no input makes any of them fail. -/
theorem C7_parser_tolerance (soupOf : String → KH.Doc)
    (html system_name game_name : String) :
    ((soupOf html).tables = [] →
      KH.parseGameListOfHtml soupOf html system_name = [] ∧
      KH.parseMidiListOfHtml soupOf html game_name system_name = []) ∧
    ((soupOf html).anchors = [] →
      KH.parseDownloadUrlOfHtml soupOf html = none) := by
  refine ⟨fun ht => ⟨?_, ?_⟩, fun ha => ?_⟩
  · unfold KH.parseGameListOfHtml KH.parse_game_list
    rw [ht]
    rfl
  · unfold KH.parseMidiListOfHtml KH.parse_midi_list
    rw [ht]
    rfl
  · unfold KH.parseDownloadUrlOfHtml KH.parse_midi_download_url
    rw [ha]
    rfl

/-- Witness for C7 at the empty document. -/
theorem C7_witness :
    (KH.emptyDoc.tables = [] ∧
      KH.parseGameListOfHtml (fun _ => KH.emptyDoc) "<junk>" "sys" = [] ∧
      KH.parseMidiListOfHtml (fun _ => KH.emptyDoc) "<junk>" "g" "sys" = []) ∧
    (KH.emptyDoc.anchors = [] ∧
      KH.parseDownloadUrlOfHtml (fun _ => KH.emptyDoc) "<junk>" = none) :=
  ⟨⟨rfl, (C7_parser_tolerance (fun _ => KH.emptyDoc) "<junk>" "sys" "g").1 rfl⟩,
   ⟨rfl, (C7_parser_tolerance (fun _ => KH.emptyDoc) "<junk>" "sys" "g").2 rfl⟩⟩

/-- C9: with the idealized clock (sleep advances time by exactly the
requested amount), if less than `delay` has elapsed since the instance's
previous request the client sleeps for exactly the remainder, and the
second of two consecutive `get` calls on one instance is issued at least
`delay` after the first. -/
theorem C9_rate_limiting :
    (∀ delay last now : ℚ, now - last < delay →
      KH.rateLimitSleep delay last now = delay - (now - last)) ∧
    (∀ delay last0 now1 now2 : ℚ,
      (KH.clientGetStep delay (KH.clientGetStep delay last0 now1).2 now2).1 ≥
        (KH.clientGetStep delay last0 now1).1 + delay) := by
  constructor
  · intro delay last now h
    unfold KH.rateLimitSleep
    rw [if_pos h]
  · intro delay last0 now1 now2
    show KH.rateLimitWake delay (KH.rateLimitWake delay last0 now1) now2 ≥
      KH.rateLimitWake delay last0 now1 + delay
    exact rateLimitWake_ge delay (KH.rateLimitWake delay last0 now1) now2

/-- Witness for C9's sleep equation at `delay = 1`, `last = 0`,
`now = 1/2`. -/
theorem C9_witness :
    (1 : ℚ)/2 - 0 < 1 ∧ KH.rateLimitSleep 1 0 (1/2) = 1 - ((1 : ℚ)/2 - 0) :=
  ⟨by norm_num, C9_rate_limiting.1 1 0 (1/2) (by norm_num)⟩

/-- C2: every `MidiFile` returned by `get_midi_files_for_game` carries as
game name the URL's last path segment and as system name the second-to-last
segment (after stripping trailing slashes), with the literal `"unknown"`
whenever the corresponding segment is absent. -/
theorem C2_name_derivation (get_text : String → Option String)
    (soupOf : String → KH.Doc) (game_url : String) (m : KH.MidiFile)
    (hm : m ∈ KH.get_midi_files_for_game get_text soupOf game_url) :
    m.game_name = KH.specGameName game_url ∧
    m.system = KH.specSystemName game_url := by
  unfold KH.get_midi_files_for_game at hm
  split at hm
  · simp at hm
  · rename_i html _
    split at hm
    · simp at hm
    · unfold KH.resolvePhase at hm
      rcases List.mem_map.mp hm with ⟨m0, hm0, hres⟩
      have hfields := KH.resolveMidi_frame get_text soupOf m0
      unfold KH.parse_midi_list at hm0
      split at hm0
      · simp at hm0
      · rw [KH.midiListLoop_eq] at hm0
        simp only [List.nil_append] at hm0
        rcases List.mem_filterMap.mp hm0 with ⟨row, _, hsome⟩
        have hgf := KH.midiOfRow_fields _ _ row m0 hsome
        have hnames := KH.deriveNames_eq_spec game_url
        constructor
        · rw [← hres, hfields.2.1, hgf.1, hnames]
        · rw [← hres, hfields.2.2.1, hgf.2, hnames]

/-- Witness for C2 on a concrete fixture: game URL
`https://s/sys/game` yields game name `game` and system `sys`. -/
theorem C2_witness :
    (⟨"Song", "https://www.khinsider.com/a.mid", "game", "sys", 0, false⟩ : KH.MidiFile) ∈
      KH.get_midi_files_for_game KH.fixGetText KH.fixSoup "https://s/sys/game" ∧
    (⟨"Song", "https://www.khinsider.com/a.mid", "game", "sys", 0, false⟩ : KH.MidiFile).game_name =
      KH.specGameName "https://s/sys/game" ∧
    (⟨"Song", "https://www.khinsider.com/a.mid", "game", "sys", 0, false⟩ : KH.MidiFile).system =
      KH.specSystemName "https://s/sys/game" :=
  ⟨by decide,
   C2_name_derivation KH.fixGetText KH.fixSoup "https://s/sys/game" _ (by decide)⟩

/-- C4: the URL-resolution phase of `get_midi_files_for_game` is an
element-wise map over the list `parse_midi_list` produced (same length,
same order); each step can change only the `url` field, and an entry whose
detail fetch fails or whose detail page has no parsable download link is
returned unchanged. -/
theorem C4_resolution_frame (get_text : String → Option String)
    (soupOf : String → KH.Doc) (game_url html : String) (i : Nat)
    (m : KH.MidiFile) (dh : String)
    (hg : get_text game_url = some html) (hne : html ≠ "") :
    (KH.get_midi_files_for_game get_text soupOf game_url).length =
      (KH.parse_midi_list (soupOf html) (KH.deriveNames game_url).1
        (KH.deriveNames game_url).2).length ∧
    (KH.get_midi_files_for_game get_text soupOf game_url)[i]? =
      ((KH.parse_midi_list (soupOf html) (KH.deriveNames game_url).1
        (KH.deriveNames game_url).2)[i]?).map (KH.resolveMidi get_text soupOf) ∧
    ((KH.resolveMidi get_text soupOf m).name = m.name ∧
     (KH.resolveMidi get_text soupOf m).game_name = m.game_name ∧
     (KH.resolveMidi get_text soupOf m).system = m.system ∧
     (KH.resolveMidi get_text soupOf m).size_bytes = m.size_bytes ∧
     (KH.resolveMidi get_text soupOf m).downloaded = m.downloaded) ∧
    (get_text m.url = none → KH.resolveMidi get_text soupOf m = m) ∧
    (get_text m.url = some dh → KH.parse_midi_download_url (soupOf dh) = none →
      KH.resolveMidi get_text soupOf m = m) := by
  have hbody : KH.get_midi_files_for_game get_text soupOf game_url =
      KH.resolvePhase get_text soupOf
        (KH.parse_midi_list (soupOf html) (KH.deriveNames game_url).1
          (KH.deriveNames game_url).2) := by
    unfold KH.get_midi_files_for_game
    rw [hg]
    show (if html = "" then [] else _) = _
    rw [if_neg hne]
  refine ⟨?_, ?_, KH.resolveMidi_frame get_text soupOf m, ?_, ?_⟩
  · rw [hbody]; unfold KH.resolvePhase; rw [List.length_map]
  · rw [hbody]; unfold KH.resolvePhase; rw [List.getElem?_map]
  · intro hnone
    unfold KH.resolveMidi
    rw [hnone]
  · intro hsome hparse
    unfold KH.resolveMidi
    rw [hsome]
    show (match KH.parse_midi_download_url (soupOf dh) with
          | none => m
          | some download_url => { m with url := download_url }) = m
    rw [hparse]

/-- Witness for C4 on the concrete fixture. -/
theorem C4_witness :
    KH.fixGetText "https://s/sys/game" = some "<p>" ∧
    ("<p>" : String) ≠ "" ∧
    (KH.get_midi_files_for_game KH.fixGetText KH.fixSoup "https://s/sys/game").length =
      (KH.parse_midi_list (KH.fixSoup "<p>")
        (KH.deriveNames "https://s/sys/game").1
        (KH.deriveNames "https://s/sys/game").2).length :=
  ⟨by decide, by decide,
   (C4_resolution_frame KH.fixGetText KH.fixSoup "https://s/sys/game" "<p>" 0
      KH.mFix "<p>" (by decide) (by decide)).1⟩

/-- C5: with resume on, a file whose derived filename already exists in the
output directory is marked downloaded and included in the successful list,
and its processing step performs no HTTP-client call. -/
theorem C5_resume_skip (env : KH.Env) (output_dir : String)
    (files : List KH.MidiFile) (m : KH.MidiFile)
    (hmem : m ∈ files)
    (hex : env.fileExists (output_dir ++ "/" ++ m.filename) = true) :
    (KH.downloadOne env true output_dir m).httpCalls = 0 ∧
    (KH.downloadOne env true output_dir m).result = some m.mark_downloaded ∧
    m.mark_downloaded ∈ KH.executeGame env true output_dir files := by
  have hstep : KH.downloadOne env true output_dir m =
      { result := some m.mark_downloaded, httpCalls := 0, saveCalls := 0 } := by
    unfold KH.downloadOne
    rw [if_pos (by simp [hex])]
  refine ⟨by rw [hstep], by rw [hstep], ?_⟩
  cases files with
  | nil => simp at hmem
  | cons f fs =>
    unfold KH.executeGame
    rw [if_neg (by simp)]
    exact List.mem_filterMap.mpr ⟨m, hmem, by rw [hstep]⟩

/-- Witness for C5: everything already on disk, every fetch failing. -/
theorem C5_witness :
    KH.mFix ∈ [KH.mFix] ∧
    KH.envExists.fileExists ("out" ++ "/" ++ KH.mFix.filename) = true ∧
    (KH.downloadOne KH.envExists true "out" KH.mFix).httpCalls = 0 ∧
    KH.mFix.mark_downloaded ∈ KH.executeGame KH.envExists true "out" [KH.mFix] := by
  have h := C5_resume_skip KH.envExists "out" [KH.mFix] KH.mFix (by decide) (by decide)
  exact ⟨by decide, by decide, h.1, h.2.2⟩

/-- C6: the per-game download never aborts the batch: the empty listing
short-circuits to `[]`, the returned list is exactly the per-file
`filterMap` (so each file is processed independently, in order), and a file
whose fetch returns no result or an empty body, or whose save fails, ends
its step with no entry for the successful list. -/
theorem C6_failure_isolation (env : KH.Env) (resume : Bool)
    (output_dir : String) (files : List KH.MidiFile) (m : KH.MidiFile)
    (c : List Nat) :
    KH.executeGame env resume output_dir [] = [] ∧
    (KH.executeGame env resume output_dir files =
      files.filterMap (fun x => (KH.downloadOne env resume output_dir x).result)) ∧
    ((resume = false ∨
        env.fileExists (output_dir ++ "/" ++ m.filename) = false) →
      (env.httpGet m.url = none ∨ env.httpGet m.url = some [] ∨
        (env.httpGet m.url = some c ∧
          env.saveOk (output_dir ++ "/" ++ m.filename) = false)) →
      (KH.downloadOne env resume output_dir m).result = none) := by
  refine ⟨by simp [KH.executeGame], ?_, ?_⟩
  · cases files with
    | nil => simp [KH.executeGame]
    | cons f fs =>
      unfold KH.executeGame
      rw [if_neg (by simp)]
  · intro hskip hfail
    have hcond : (resume && env.fileExists (output_dir ++ "/" ++ m.filename)) = false := by
      rcases hskip with h | h <;> simp [h]
    unfold KH.downloadOne
    rw [if_neg (by simp [hcond])]
    rcases hfail with hn | he | ⟨hc, hs⟩
    · rw [hn]
    · rw [he]
      exact rfl
    · rw [hc]
      by_cases hc0 : c.length = 0
      · simp [hc0]
      · simp [hc0, hs]

/-- Witness for C6 with a fetch-failure environment. -/
theorem C6_witness :
    KH.executeGame KH.envFetchFail false "out" [] = [] ∧
    (false = false ∨
      KH.envFetchFail.fileExists ("out" ++ "/" ++ KH.mFix.filename) = false) ∧
    (KH.envFetchFail.httpGet KH.mFix.url = none ∨
      KH.envFetchFail.httpGet KH.mFix.url = some [] ∨
      (KH.envFetchFail.httpGet KH.mFix.url = some [] ∧
        KH.envFetchFail.saveOk ("out" ++ "/" ++ KH.mFix.filename) = false)) ∧
    (KH.downloadOne KH.envFetchFail false "out" KH.mFix).result = none := by
  have h := C6_failure_isolation KH.envFetchFail false "out" [] KH.mFix []
  exact ⟨h.1, Or.inl rfl, Or.inl (by decide),
    h.2.2 (Or.inl rfl) (Or.inl (by decide))⟩

/-- C10: a successful response with an empty body is indistinguishable from
failure: `get_text` returns `none` rather than the empty string, and the
per-game step treats the empty content as a failed fetch — nothing is
saved and the file contributes no entry to the successful list. -/
theorem C10_empty_body (get : String → Option (List Nat))
    (decode : List Nat → String) (url : String) (env : KH.Env)
    (resume : Bool) (output_dir : String) (m : KH.MidiFile)
    (hg : get url = some []) (he : env.httpGet m.url = some [])
    (hskip : resume = false ∨
      env.fileExists (output_dir ++ "/" ++ m.filename) = false) :
    KH.get_text_of get decode url = none ∧
    (KH.downloadOne env resume output_dir m).result = none ∧
    (KH.downloadOne env resume output_dir m).saveCalls = 0 := by
  have hcond : (resume && env.fileExists (output_dir ++ "/" ++ m.filename)) = false := by
    rcases hskip with h | h <;> simp [h]
  have hstep : KH.downloadOne env resume output_dir m =
      { result := none, httpCalls := 1, saveCalls := 0 } := by
    unfold KH.downloadOne
    rw [if_neg (by simp [hcond]), he]
    exact rfl
  refine ⟨?_, by rw [hstep], by rw [hstep]⟩
  unfold KH.get_text_of
  rw [hg]
  rfl

/-- Witness for C10 with the empty-body environment. -/
theorem C10_witness :
    (fun _ : String => some ([] : List Nat)) "u" = some [] ∧
    KH.envEmptyBody.httpGet KH.mFix.url = some [] ∧
    (false = false ∨
      KH.envEmptyBody.fileExists ("out" ++ "/" ++ KH.mFix.filename) = false) ∧
    KH.get_text_of (fun _ => some []) (fun _ => "") "u" = none ∧
    (KH.downloadOne KH.envEmptyBody false "out" KH.mFix).result = none ∧
    (KH.downloadOne KH.envEmptyBody false "out" KH.mFix).saveCalls = 0 := by
  have h := C10_empty_body (fun _ => some []) (fun _ => "") "u" KH.envEmptyBody
    false "out" KH.mFix rfl (by decide) (Or.inl rfl)
  exact ⟨rfl, by decide, Or.inl rfl, h.1, h.2.1, h.2.2⟩
